import Mathlib

/-!
Verification of the `hook` package of gocharm: the registry
(src/hook/registry.go), the dispatcher and state persistence
(src/hook/main.go) and the tool runner (src/hook/runner.go), shallowly
embedded in Lean. Go maps become association lists, pointers to
module-local state values become positions in an in-memory value list,
and the deferred save of `Main` is made explicit in the control flow.
-/

namespace GoCharm

/-- A serialized state blob, the `[]byte` produced by `json.Marshal`.
`encoding/json` round-trips a Go value through its JSON document, so we
identify a state value with its JSON document and use one type for both. -/
abbrev Blob := String

/-- The in-memory Go value held behind a registered state pointer,
identified with its JSON document (see `Blob`). -/
abbrev StateVal := String

/-- Generic association-list lookup, the model of reading a Go map. -/
def assocGet {α : Type} : List (String × α) → String → Option α
  | [], _ => none
  | (k, v) :: rest, n => if k = n then some v else assocGet rest n

/-- Generic association-list update, the model of writing a Go map key. -/
def assocSet {α : Type} : List (String × α) → String → α → List (String × α)
  | [], n, b => [(n, b)]
  | (k, v) :: rest, n, b =>
    if k = n then (k, b) :: rest else (k, v) :: assocSet rest n b

/-- Model of `json.Marshal` on a state value: a state value is identified
with its JSON document, so marshalling returns the document itself.
(`json.Marshal` never fails on a JSON-representable value, which every
registered state value is.) -/
def json_Marshal (v : StateVal) : Blob := v

/-- Model of `json.Unmarshal` of a blob into a registered state value:
the blob was produced by `json_Marshal`, so decoding yields the document
back. A decode failure is possible in Go on a corrupted blob; no claim
depends on that branch, and blobs written by `saveState` are well formed. -/
def json_Unmarshal (b : Blob) : StateVal := b

/-- Modelled from the spec: the `PersistentState` interface of the hook
package ("key-scoped durable storage: load a named blob, save a named
blob") and its on-disk implementation `DiskState`, which are not under
src/ (only `Main`, `loadState` and `saveState` here call them).
`entries` maps namespace paths to saved blobs; per the spec, absence of
previously saved data for a path is reported as no data, not an error.
`saveFails` and `loadFails` are the I/O failures an implementation may
report on a given path. -/
structure PersistentState where
  entries : List (String × Blob)
  saveFails : List String
  loadFails : List String
deriving Repr, DecidableEq

/-- `PersistentState.Load`: return the blob stored under `name`, `none`
when nothing was ever saved there, or an error on an injected I/O fault. -/
def PersistentState.Load (st : PersistentState) (name : String) :
    Except String (Option Blob) :=
  if name ∈ st.loadFails then .error ("cannot read state file for " ++ name)
  else .ok (assocGet st.entries name)

/-- `PersistentState.Save`: store `data` under `name`, or report an error
on an injected I/O fault (in which case the store is unchanged). -/
def PersistentState.Save (st : PersistentState) (name : String) (data : Blob) :
    Except String PersistentState :=
  if name ∈ st.saveFails then .error ("cannot write state file for " ++ name)
  else .ok { st with entries := assocSet st.entries name data }

/-- The per-invocation in-memory contents of all registered state values,
positional: entry `i` of the list is the value behind the pointer of the
`i`-th registered state entry (distinct registrations are distinct Go
pointers even if their namespace paths coincide). -/
abbrev Mem := List StateVal

/-- The hook context (src/hook/main.go `Context`), restricted to the
fields the verified claims read. `runCommandName` is nonempty exactly
for command-mode invocations. -/
structure Context where
  uuid : String := ""
  unit : String := ""
  charmDir : String := ""
  relationName : String := ""
  relationId : String := ""
  remoteUnit : String := ""
  hookName : String := ""
  runCommandName : String := ""
  runCommandArgs : List String := []
deriving Repr, DecidableEq

/-- A handler entry as stored in the registry (src/hook/registry.go
`hookFunc`): the registered function tagged with the namespace of the
registering registry. `tag` is ghost instrumentation naming the handler
so that execution order can be stated; it does not influence execution.
The handler runs against the shared in-memory state (in Go it mutates
registered state values through pointers) and may return an error. -/
structure hookFunc where
  localStateName : String
  tag : Nat
  run : Mem → Mem × Option String

/-- A registered persistent-state entry of the registry: the full
namespace path it is keyed by, and the caller-supplied default value the
in-memory state holds before `loadState` runs. In Go the registry holds
a pointer; here the entry position in `Registry.state` plays the pointer. -/
structure StateEntry where
  registryName : String
  val : StateVal
deriving Repr, DecidableEq

/-- The hook registry (src/hook/registry.go `Registry`). Go sub-registries
share the underlying maps with their parent and differ only in the
namespace they stamp on registrations; operations here therefore take
the namespace of the registering (sub-)registry as an argument, and one
`Registry` value holds the shared maps. Command functions are opaque to
every claim and are modelled by numeric tags. -/
structure Registry where
  hooks : List (String × List hookFunc) := []
  commands : List (String × Nat) := []
  state : List StateEntry := []
  contexts : List (Context → Option String) := []

/-- Model of `filepath.Join` on the two-segment paths the registry
builds: an empty segment disappears, nonempty segments are joined with
a slash. (Path cleaning of `.` and `..` segments never arises for the
relative names the registry is given.) -/
def filepath_Join (a b : String) : String :=
  if a = "" then b else if b = "" then a else a ++ "/" ++ b

/-- Handlers registered for a hook name: reading `r.hooks[name]`, where a
missing key yields the empty list, as in Go. -/
def hooksGet (hs : List (String × List hookFunc)) (name : String) : List hookFunc :=
  (assocGet hs name).getD []

/-- Appending one handler to `r.hooks[name]`, the write performed by
`Register`. -/
def hooksAppend (hs : List (String × List hookFunc)) (name : String)
    (f : hookFunc) : List (String × List hookFunc) :=
  assocSet hs name (hooksGet hs name ++ [f])

/-- `Registry.Register` (src/hook/registry.go lines 42-51): append the
function to the ordered handler list for `name`, stamped with the
namespace `ns` of the registering (sub-)registry. -/
def Registry.Register (r : Registry) (ns : String) (name : String)
    (tag : Nat) (run : Mem → Mem × Option String) : Registry :=
  { r with hooks := hooksAppend r.hooks name ⟨ns, tag, run⟩ }

/-- `Registry.RegisterCommand` (src/hook/registry.go lines 62-70): compute
the full path of the command by joining the registry namespace with the
local name, and fail at once (a panic in Go) when that full path is
already registered; a registered Go command function is never nil, so
the nil check of the source is presence in the map. -/
def Registry.RegisterCommand (r : Registry) (ns : String) (name : String)
    (c : Nat) : Except String Registry :=
  let full := filepath_Join ns name
  if (assocGet r.commands full).isSome then
    .error ("command " ++ full ++ " is already registered")
  else
    .ok { r with commands := assocSet r.commands full c }

/-- `Registry.RegisterStateVal`: add an entry to the persistence list,
keyed by the registering namespace, holding the caller default. The Go
registration functions for state are not under src/ (only the `r.state`
consumer in main.go is); the list append is forced by `loadState` and
`saveState` iterating `r.state` in order. -/
def Registry.RegisterStateVal (r : Registry) (ns : String) (v : StateVal) : Registry :=
  { r with state := r.state ++ [⟨ns, v⟩] }

/-- `RegisteredHooks` (src/hook/registry.go lines 89-95) ranges over the
Go map `r.hooks` and collects its keys. Go leaves the iteration order of
a map range unspecified (and deliberately varies it), so the function
denotes a relation: `out` is a possible return value exactly when it
enumerates the registered hook names, each once, in some order. -/
def RegisteredHooks (r : Registry) (out : List String) : Prop :=
  out.Perm (r.hooks.map Prod.fst)

/-- The error kinds `Main` can report, mirroring how main.go builds them:
`usage` from `usageError`, `loadErr` from the `loadState` wrap naming the
entry, `contextErr` from the context-setter wrap, `handlerErr` from
`errgo.Mask` of a handler error (the mask preserves the message), and
`saveErr` from the "cannot save local state" wrap of the deferred save. -/
inductive MainErr
  | usage
  | loadErr (name : String) (e : String)
  | contextErr (e : String)
  | handlerErr (e : String)
  | saveErr (e : String)
deriving Repr, DecidableEq

/-- `loadState` (src/hook/main.go lines 107-121) over the registered
entries: load each namespace in order; absent data leaves the default
value in place; present data replaces it with the decoded blob; the
first load failure aborts with the failing namespace name. -/
def loadStateAux (st : PersistentState) :
    List StateEntry → Except (String × String) Mem
  | [] => .ok []
  | e :: rest =>
    match st.Load e.registryName with
    | .error err => .error (e.registryName, err)
    | .ok none =>
      match loadStateAux st rest with
      | .error f => .error f
      | .ok m => .ok (e.val :: m)
    | .ok (some b) =>
      match loadStateAux st rest with
      | .error f => .error f
      | .ok m => .ok (json_Unmarshal b :: m)

/-- `loadState`: produce the in-memory state all handlers will see. -/
def loadState (r : Registry) (st : PersistentState) : Except (String × String) Mem :=
  loadStateAux st r.state

/-- `saveState` (src/hook/main.go lines 123-134): marshal and save every
registered entry in order; the first save failure aborts the loop, so
entries before it remain saved. Returns the store after the attempts and
the failure, if any. -/
def saveStateAux (st : PersistentState) :
    List StateEntry → Mem → PersistentState × Option String
  | [], _ => (st, none)
  | _ :: _, [] => (st, none)
  | e :: rest, v :: m =>
    match st.Save e.registryName (json_Marshal v) with
    | .error err => (st, some err)
    | .ok st2 => saveStateAux st2 rest m

/-- `saveState` applied to the current in-memory values. -/
def saveState (r : Registry) (mem : Mem) (st : PersistentState) :
    PersistentState × Option String :=
  saveStateAux st r.state mem

/-- The context-setter loop of `Main` (src/hook/main.go lines 70-74):
call each setter in order, stopping at the first error. -/
def runSetters : List (Context → Option String) → Context → Option String
  | [], _ => none
  | s :: rest, c =>
    match s c with
    | some e => some e
    | none => runSetters rest c

/-- The handler loop of `Main` (src/hook/main.go lines 97-103), with a
ghost trace of the tags of the handlers that were run: run each handler
in order on the shared in-memory state; the first error stops the loop. -/
def runHooks : List hookFunc → Mem → List Nat × Mem × Option String
  | [], m => ([], m, none)
  | f :: fs, m =>
    match f.run m with
    | (m2, some e) => ([f.tag], m2, some e)
    | (m2, none) =>
      match runHooks fs m2 with
      | (tr, m3, res) => (f.tag :: tr, m3, res)

/-- The handler-execution phase of `Main` (src/hook/main.go lines 88-104),
entered after the deferred save has been installed: look up the handlers
for the hook name; an empty list is the usage error; otherwise append the
wildcard handlers and run the combined list. Returns the ghost trace, the
final in-memory state and the error of the phase. -/
def hookBody (r : Registry) (ctxt : Context) (mem : Mem) :
    List Nat × Mem × Option MainErr :=
  let named := hooksGet r.hooks ctxt.hookName
  if named.isEmpty then ([], mem, some .usage)
  else
    match runHooks (named ++ hooksGet r.hooks "*") mem with
    | (tr, mem2, he) => (tr, mem2, he.map .handlerErr)

/-- The observable outcome of one `Main` invocation: the long-lived
command handle if one was returned, the reported error, the persistent
store after the invocation, the ghost trace of executed handlers, and
whether the deferred state save ran. -/
structure MainResult where
  cmd : Option Nat
  err : Option MainErr
  store : PersistentState
  trace : List Nat
  saveAttempted : Bool
deriving Repr, DecidableEq

/-- `Main` (src/hook/main.go lines 53-105). Command mode looks up the
command and touches no state. Event mode loads state, runs the context
setters, and only then installs the deferred save; the handler phase
then runs, and the deferred save always executes afterwards, its error
replacing the result only when the phase itself did not fail (otherwise
the save error is only logged). -/
def Main (r : Registry) (ctxt : Context) (st : PersistentState) : MainResult :=
  if ctxt.runCommandName ≠ "" then
    match assocGet r.commands ctxt.runCommandName with
    | none => ⟨none, some .usage, st, [], false⟩
    | some c => ⟨some c, none, st, [], false⟩
  else
    match loadState r st with
    | .error f => ⟨none, some (.loadErr f.1 f.2), st, [], false⟩
    | .ok mem =>
      match runSetters r.contexts ctxt with
      | some e => ⟨none, some (.contextErr e), st, [], false⟩
      | none =>
        match hookBody r ctxt mem with
        | (tr, mem2, bodyErr) =>
          match saveState r mem2 st with
          | (st2, saveErr) =>
            let err :=
              match bodyErr with
              | some b => some b
              | none => saveErr.map .saveErr
            ⟨none, err, st2, tr, true⟩

/-- One call of `Register` with the arguments it was given: the namespace
of the registering (sub-)registry, the hook name, and the handler (with
its ghost tag). A list of these is a registration history. -/
structure RegEvent where
  ns : String := ""
  name : String
  tag : Nat
  run : Mem → Mem × Option String

/-- Replay a registration history against a registry, calling `Register`
once per event in order. -/
def registerAll (r : Registry) (evs : List RegEvent) : Registry :=
  evs.foldl (fun acc e => acc.Register e.ns e.name e.tag e.run) r

/-! The tool runner, src/hook/runner.go. -/

/-- The error contract of `ToolRunner.Run`: the distinguishable
unimplemented kind (`errgo.WithCausef` on `ErrUnimplemented`, carrying
the message), a generic error carrying the processed stderr text
(`errgo.New`), or the raw process launch error returned unchanged. -/
inductive ToolError
  | unimplemented (msg : String)
  | generic (msg : String)
  | raw (e : String)
deriving Repr, DecidableEq

/-- Model of `strings.HasPrefix(s, p)`, over the character lists of the
strings. -/
def strings_HasPfx (s p : String) : Bool :=
  p.toList.isPrefixOf s.toList

/-- Model of `strings.HasSuffix(s, p)`, over the character lists of the
strings. -/
def strings_HasSfx (s p : String) : Bool :=
  p.toList.isSuffixOf s.toList

/-- Model of `strings.TrimSpace`: drop leading and trailing whitespace. -/
def strings_TrimSpace (s : String) : String :=
  String.mk ((s.toList.dropWhile Char.isWhitespace).reverse.dropWhile
    Char.isWhitespace).reverse

/-- Model of `strings.TrimPrefix p` applied to `s`: remove one leading
occurrence of `p`, when present. -/
def dropLeading (p s : String) : String :=
  if strings_HasPfx s p then String.mk (s.toList.drop p.toList.length) else s

/-- `isUnimplemented` (src/hook/runner.go lines 70-72): the reserved
unknown-command marker on the processed stderr text. -/
def isUnimplemented (errStr : String) : Bool :=
  strings_HasPfx errStr "bad request: unknown command"

/-- `execToolRunner.Run` (src/hook/runner.go lines 88-111), as a function
of the observable outcome of the child process: its standard output, its
standard error, and the error `c.Run` reported (`none` on success). On a
failed run with nonempty stderr, the stderr text is whitespace-trimmed,
a leading diagnostic marker `error: ` is removed, and the result is the
unimplemented kind when the reserved marker starts the text, a generic
error carrying the text otherwise; a failed run with empty stderr
returns the raw launch error. (The `jujucSymlinks` toggle only renames
the spawned binary and does not affect this contract.) -/
def execToolRunner_Run (stdoutData stderrData : String) (runErr : Option String) :
    Except ToolError String :=
  match runErr with
  | none => .ok stdoutData
  | some e =>
    if stderrData.length > 0 then
      let errText := dropLeading "error: " (strings_TrimSpace stderrData)
      if isUnimplemented errText then .error (.unimplemented errText)
      else .error (.generic errText)
    else .error (.raw e)

/-- A request over the RPC connection to the unit agent (src/hook/runner.go
`jujucRequest`), the message a socket-backed tool call is meant to send. -/
structure jujucRequest where
  contextId : String
  dir : String
  commandName : String
  args : List String
deriving Repr, DecidableEq

/-- `socketToolRunner.Run` (src/hook/runner.go lines 76-80), instrumented
with the list of requests sent on the jujuc RPC connection during the
call. The body declares a zero-valued `exec.ExecResponse` and returns its
`Stdout` field (nil) with a nil error; the connection held in the runner
is never used, so no request is sent, for every command and arguments. -/
def socketToolRunner_Run (_cmd : String) (_args : List String) :
    List jujucRequest × String × Option ToolError :=
  ([], "", none)

/-- The two `ToolRunner` implementations of runner.go. -/
inductive RunnerKind
  | execRunner
  | socketRunner
deriving Repr, DecidableEq

/-- `newToolRunnerFromEnvironment` (src/hook/runner.go lines 48-50):
unconditionally returns `&execToolRunner\x7b\x7d` with a nil error. -/
def newToolRunnerFromEnvironment : Except String RunnerKind :=
  .ok .execRunner

/-! Context construction from the environment, src/hook/main.go. -/

/-- The process environment: variable names mapped to values, where a
variable that is unset reads as the empty string (`os.Getenv`). -/
abbrev Env := List (String × String)

/-- Model of `os.Getenv`. -/
def os_Getenv (env : Env) (v : String) : String :=
  (assocGet env v).getD ""

def envUUID : String := "JUJU_MODEL_UUID"
def envUnitName : String := "JUJU_UNIT_NAME"
def envCharmDir : String := "CHARM_DIR"
def envJujuContextId : String := "JUJU_CONTEXT_ID"
def envRelationName : String := "JUJU_RELATION"
def envRelationId : String := "JUJU_RELATION_ID"
def envRemoteUnit : String := "JUJU_REMOTE_UNIT"

/-- `mustEnvVars` (src/hook/main.go lines 25-30). -/
def mustEnvVars : List String :=
  [envUUID, envUnitName, envCharmDir, envJujuContextId]

/-- `relationEnvVars` (src/hook/main.go lines 32-37); the remote-unit
variable is kept out because it is not guaranteed for relation-broken
hooks. -/
def relationEnvVars : List String :=
  [envRelationName, envRelationId]

/-- The value of `hooks.RelationBroken` from the charm package. -/
def relationBroken : String := "relation-broken"

/-- The required-variable list `vars` built by `NewContextFromEnvironment`
(src/hook/main.go lines 197-203): the always-required variables; plus the
relation variables when the relation-name variable is set; plus the
remote-unit variable unless the hook name ends in the relation-broken
suffix. -/
def requiredEnvVars (env : Env) (hookName : String) : List String :=
  mustEnvVars ++
    (if os_Getenv env envRelationName ≠ "" then
      relationEnvVars ++
        (if ¬ (strings_HasSfx hookName ("-" ++ relationBroken)) then [envRemoteUnit]
         else [])
    else [])

/-- The failures of `NewContextFromEnvironment` up to and including the
environment validation: no hook name, unexpected extra arguments, and a
required environment variable that is not set (named in the error). -/
inductive CtxErr
  | noHookName
  | extraArgs
  | envMissing (v : String)
deriving Repr, DecidableEq

/-- `NewContextFromEnvironment` (src/hook/main.go lines 184-251), through
its environment-validation phase. A `cmd-` hook name short-circuits into
a command context with no environment checks; otherwise extra arguments
are rejected, then each variable of `requiredEnvVars` is checked in
order and the first unset one aborts with an error naming it. After
validation the source constructs the tool runner and eagerly populates
the relation snapshot through tool calls; those steps depend only on
tool-call results and cannot report a missing environment variable, so
the model returns at that point the context populated from the
environment, as the source builds it on lines 213-223. -/
def NewContextFromEnvironment (env : Env) (hookName : String)
    (args : List String) : Except CtxErr Context :=
  if hookName = "" then .error .noHookName
  else if strings_HasPfx hookName "cmd-" then
    .ok { runCommandName := dropLeading "cmd-" hookName, runCommandArgs := args }
  else if ¬ args.isEmpty then .error .extraArgs
  else
    match (requiredEnvVars env hookName).find? (fun v => os_Getenv env v == "") with
    | some v => .error (.envMissing v)
    | none =>
      .ok { uuid := os_Getenv env envUUID
            unit := os_Getenv env envUnitName
            charmDir := os_Getenv env envCharmDir
            relationName := os_Getenv env envRelationName
            relationId := os_Getenv env envRelationId
            remoteUnit := os_Getenv env envRemoteUnit
            hookName := hookName }

/-! Concrete fixtures used to instantiate the verified statements. -/

/-- A handler body that succeeds and leaves the state alone. -/
def okRun : Mem → Mem × Option String := fun m => (m, none)

/-- The expected stored value of a loaded entry: the saved blob when one
exists, the caller default otherwise (the per-entry effect of `loadState`). -/
def loadedVal (st : PersistentState) (e : StateEntry) : StateVal :=
  match assocGet st.entries e.registryName with
  | none => e.val
  | some b => json_Unmarshal b

/-- A registration history interleaving a wildcard registration before two
handlers for the `install` event. -/
def evsW : List RegEvent :=
  [⟨"", "*", 0, okRun⟩, ⟨"", "install", 1, okRun⟩, ⟨"", "install", 2, okRun⟩]

/-- An event-mode context for the `install` hook. -/
def ctxtInstall : Context := { hookName := "install" }

/-- An event-mode context for the `start` hook. -/
def ctxtStart : Context := { hookName := "start" }

/-- An event-mode context for the `config-changed` hook. -/
def ctxtConfigChanged : Context := { hookName := "config-changed" }

/-- A persistent store with no saved data and no injected faults. -/
def stEmpty : PersistentState := ⟨[], [], []⟩

/-- A persistent store that fails every save under the `cfg` namespace. -/
def stSaveFailCfg : PersistentState := ⟨[], ["cfg"], []⟩

/-- A persistent store that fails every save under the `n` namespace. -/
def stSaveFailN : PersistentState := ⟨[], ["n"], []⟩

/-- A handler that overwrites the single state value and succeeds. -/
def hOk1 : hookFunc := ⟨"", 1, fun _ => (["ran"], none)⟩

/-- A handler that always fails with the message `boom`. -/
def hBad : hookFunc := ⟨"", 2, fun m => (m, some "boom")⟩

/-- A handler that succeeds and leaves the state alone. -/
def hOk3 : hookFunc := ⟨"", 3, fun m => (m, none)⟩

/-- A registry whose `install` handler chain fails at its second handler,
with one registered state entry under `cfg`. -/
def rFail : Registry :=
  { hooks := [("install", [hOk1, hBad, hOk3])], state := [⟨"cfg", "0"⟩] }

/-- A registry with one succeeding `start` handler that writes the single
state entry registered under `n`. -/
def rStart : Registry :=
  { hooks := [("start", [⟨"", 7, fun _ => (["7"], none)⟩])], state := [⟨"n", "0"⟩] }

/-- A registry with no hooks and one registered state entry holding the
default value `5` under `counter`. -/
def rCounter : Registry := { state := [⟨"counter", "5"⟩] }

/-- A registry with one registered state entry under `svc/count` whose
caller default is `41`. -/
def rCount : Registry := { state := [⟨"svc/count", "41"⟩] }

/-- A registry with hooks registered under the names `a` and `b`. -/
def rAB : Registry :=
  registerAll {} [⟨"", "a", 0, okRun⟩, ⟨"", "b", 1, okRun⟩]

/-- An environment with every always-required variable set except the
unit name. -/
def envNoUnit : Env :=
  [(envUUID, "uuid-1"), (envCharmDir, "/charm"), (envJujuContextId, "ctx-1")]

/-! Helper lemmas. -/

theorem assocGet_assocSet {α : Type} (l : List (String × α)) (n m : String) (b : α) :
    assocGet (assocSet l n b) m = if n = m then some b else assocGet l m := by
  induction l with
  | nil => by_cases h : n = m <;> simp [assocSet, assocGet, h]
  | cons kv rest ih =>
    obtain ⟨k, v⟩ := kv
    by_cases hk : k = n <;> by_cases hm : n = m <;>
      simp_all [assocSet, assocGet]

theorem hooksGet_hooksAppend (hs : List (String × List hookFunc)) (n m : String)
    (f : hookFunc) :
    hooksGet (hooksAppend hs n f) m =
      if n = m then hooksGet hs m ++ [f] else hooksGet hs m := by
  unfold hooksGet hooksAppend
  rw [assocGet_assocSet]
  by_cases h : n = m
  · subst h; simp [hooksGet]
  · simp [h]

theorem registerAll_state (evs : List RegEvent) (r : Registry) :
    (registerAll r evs).state = r.state := by
  induction evs generalizing r with
  | nil => rfl
  | cons e evs ih =>
    simp only [registerAll, List.foldl_cons] at *
    exact ih (r.Register e.ns e.name e.tag e.run)

theorem registerAll_contexts (evs : List RegEvent) (r : Registry) :
    (registerAll r evs).contexts = r.contexts := by
  induction evs generalizing r with
  | nil => rfl
  | cons e evs ih =>
    simp only [registerAll, List.foldl_cons] at *
    exact ih (r.Register e.ns e.name e.tag e.run)

theorem registerAll_hooksGet (evs : List RegEvent) (r : Registry) (n : String) :
    hooksGet (registerAll r evs).hooks n =
      hooksGet r.hooks n ++
        (evs.filter (fun e => e.name == n)).map
          (fun e => hookFunc.mk e.ns e.tag e.run) := by
  induction evs generalizing r with
  | nil => simp [registerAll]
  | cons e evs ih =>
    simp only [registerAll, List.foldl_cons, List.filter_cons]
    have step : (evs.foldl (fun acc e2 => acc.Register e2.ns e2.name e2.tag e2.run)
        (r.Register e.ns e.name e.tag e.run)) =
        registerAll (r.Register e.ns e.name e.tag e.run) evs := rfl
    rw [step, ih]
    by_cases h : e.name = n
    · simp [Registry.Register, hooksGet_hooksAppend, h]
    · simp [Registry.Register, hooksGet_hooksAppend, h]

theorem runHooks_allOk (fs : List hookFunc) (m : Mem)
    (h : ∀ f ∈ fs, ∀ m2, (f.run m2).2 = none) :
    ∃ m3, runHooks fs m = (fs.map hookFunc.tag, m3, none) := by
  induction fs generalizing m with
  | nil => exact ⟨m, rfl⟩
  | cons f fs ih =>
    obtain ⟨m3, hrec⟩ :=
      ih (f.run m).1 (fun g hg m2 => h g (List.mem_cons_of_mem f hg) m2)
    refine ⟨m3, ?_⟩
    have hf : (f.run m).2 = none := h f (List.mem_cons_self f fs) m
    have hsplit : f.run m = ((f.run m).1, none) := by
      conv_rhs => rw [← hf]
    simp only [runHooks]
    rw [hsplit]
    simp [hrec]

theorem runHooks_firstFail (gs : List hookFunc) (fbad : hookFunc)
    (rest : List hookFunc) (emsg : String) (m : Mem)
    (hg : ∀ g ∈ gs, ∀ m2, (g.run m2).2 = none)
    (hb : ∀ m2, (fbad.run m2).2 = some emsg) :
    ∃ m3, runHooks (gs ++ fbad :: rest) m =
      (gs.map hookFunc.tag ++ [fbad.tag], m3, some emsg) := by
  induction gs generalizing m with
  | nil =>
    refine ⟨(fbad.run m).1, ?_⟩
    have hf : (fbad.run m).2 = some emsg := hb m
    have hsplit : fbad.run m = ((fbad.run m).1, some emsg) := by
      conv_rhs => rw [← hf]
    simp only [List.nil_append, runHooks]
    rw [hsplit]
    simp
  | cons g gs ih =>
    obtain ⟨m3, hrec⟩ :=
      ih (g.run m).1 (fun g2 hg2 m2 => hg g2 (List.mem_cons_of_mem g hg2) m2)
    refine ⟨m3, ?_⟩
    have hf : (g.run m).2 = none := hg g (List.mem_cons_self g gs) m
    have hsplit : g.run m = ((g.run m).1, none) := by
      conv_rhs => rw [← hf]
    simp only [List.cons_append, runHooks]
    rw [hsplit]
    simp [hrec]

theorem Main_eventMode (r : Registry) (ctxt : Context) (st : PersistentState)
    (mem : Mem) (h1 : ctxt.runCommandName = "")
    (h2 : loadState r st = .ok mem)
    (h3 : runSetters r.contexts ctxt = none) :
    Main r ctxt st =
      ⟨none,
       match (hookBody r ctxt mem).2.2 with
       | some b => some b
       | none => ((saveState r (hookBody r ctxt mem).2.1 st).2).map .saveErr,
       (saveState r (hookBody r ctxt mem).2.1 st).1,
       (hookBody r ctxt mem).1,
       true⟩ := by
  unfold Main
  rw [h1]
  simp only [ne_eq, not_true_eq_false, if_false, h2, h3]

theorem hookBody_ne_nil (r : Registry) (ctxt : Context) (mem : Mem)
    (h : hooksGet r.hooks ctxt.hookName ≠ []) :
    hookBody r ctxt mem =
      (match runHooks (hooksGet r.hooks ctxt.hookName ++ hooksGet r.hooks "*") mem with
       | (tr, mem2, he) => (tr, mem2, he.map MainErr.handlerErr)) := by
  unfold hookBody
  rcases hn : hooksGet r.hooks ctxt.hookName with _ | ⟨x, xs⟩
  · exact absurd hn h
  · simp

/-! The claims. -/

/-- C1: in every event-mode invocation, the handlers registered for the
invoked event name execute in registration order, and every wildcard
handler executes strictly after all event-specific handlers, whatever
the interleaving of the registrations was: the trace of executed
handlers is the registration-ordered event-name handlers followed by the
registration-ordered wildcard handlers. -/
theorem hook_handlers_run_in_registration_order_wildcard_last
    (evs : List RegEvent) (name : String) (ctxt : Context) (st : PersistentState)
    (_h0 : name ≠ "*")
    (h1 : ctxt.runCommandName = "")
    (h2 : ctxt.hookName = name)
    (h3 : ∀ e ∈ evs, ∀ m, (e.run m).2 = none)
    (h4 : ∃ e ∈ evs, e.name = name) :
    (Main (registerAll {} evs) ctxt st).trace =
      ((evs.filter (fun e => e.name == name)).map RegEvent.tag) ++
      ((evs.filter (fun e => e.name == "*")).map RegEvent.tag) := by
  have hstate : (registerAll {} evs).state = [] := registerAll_state evs {}
  have hctxts : (registerAll {} evs).contexts = [] := registerAll_contexts evs {}
  have hload : loadState (registerAll {} evs) st = .ok [] := by
    unfold loadState
    rw [hstate]
    rfl
  have hset : runSetters (registerAll {} evs).contexts ctxt = none := by
    rw [hctxts]
    rfl
  have hnamed : hooksGet (registerAll {} evs).hooks name =
      (evs.filter (fun e => e.name == name)).map
        (fun e => hookFunc.mk e.ns e.tag e.run) := by
    rw [registerAll_hooksGet]
    rfl
  have hwild : hooksGet (registerAll {} evs).hooks "*" =
      (evs.filter (fun e => e.name == "*")).map
        (fun e => hookFunc.mk e.ns e.tag e.run) := by
    rw [registerAll_hooksGet]
    rfl
  have hne : hooksGet (registerAll {} evs).hooks ctxt.hookName ≠ [] := by
    rw [h2, hnamed]
    obtain ⟨e, he, hename⟩ := h4
    intro hnil
    have : e ∈ evs.filter (fun e2 => e2.name == name) := by
      rw [List.mem_filter]
      exact ⟨he, by simp [hename]⟩
    rw [List.eq_nil_iff_forall_not_mem] at hnil
    exact hnil _ (List.mem_map_of_mem _ this)
  have hall : ∀ f ∈ hooksGet (registerAll {} evs).hooks ctxt.hookName ++
      hooksGet (registerAll {} evs).hooks "*", ∀ m2, (f.run m2).2 = none := by
    intro f hf m2
    rw [h2, hnamed, hwild, ← List.map_append] at hf
    obtain ⟨e, he, rfl⟩ := List.mem_map.mp hf
    have : e ∈ evs := by
      rcases List.mem_append.mp he with hl | hr
      · exact (List.mem_filter.mp hl).1
      · exact (List.mem_filter.mp hr).1
    exact h3 e this m2
  obtain ⟨m3, hrun⟩ := runHooks_allOk _ [] hall
  have hbody : hookBody (registerAll {} evs) ctxt [] =
      (((evs.filter (fun e => e.name == name)).map RegEvent.tag) ++
       ((evs.filter (fun e => e.name == "*")).map RegEvent.tag), m3, none) := by
    rw [hookBody_ne_nil _ _ _ hne, hrun]
    rw [h2, hnamed, hwild]
    simp only [List.map_append, List.map_map]
    rfl
  rw [Main_eventMode _ ctxt st [] h1 hload hset, hbody]

/-- Witness for C1 at a concrete registration history: a wildcard handler
registered first still runs last. -/
theorem hook_handlers_order_witness :
    (Main (registerAll {} evsW) ctxtInstall stEmpty).trace = [1, 2, 0] := by
  have h := hook_handlers_run_in_registration_order_wildcard_last
    evsW "install" ctxtInstall stEmpty (by decide) rfl rfl
    (by
      intro e he m
      simp [evsW] at he
      rcases he with rfl | rfl | rfl <;> rfl)
    ⟨⟨"", "install", 1, okRun⟩, by simp [evsW], rfl⟩
  exact h

/-- C2: when handler `k` of the combined execution list is the first to
fail, the handlers after it never execute, and the reported error of the
invocation is the error of handler `k` (not a save error that may occur
afterwards: the conclusion holds for every persistent store, including
stores whose saves fail). -/
theorem first_failing_handler_aborts_chain_and_is_reported
    (r : Registry) (ctxt : Context) (st : PersistentState) (mem : Mem)
    (gs rest : List hookFunc) (fbad : hookFunc) (emsg : String)
    (h1 : ctxt.runCommandName = "")
    (h2 : loadState r st = .ok mem)
    (h3 : runSetters r.contexts ctxt = none)
    (h4 : hooksGet r.hooks ctxt.hookName ≠ [])
    (h5 : hooksGet r.hooks ctxt.hookName ++ hooksGet r.hooks "*" = gs ++ fbad :: rest)
    (h6 : ∀ g ∈ gs, ∀ m2, (g.run m2).2 = none)
    (h7 : ∀ m2, (fbad.run m2).2 = some emsg) :
    (Main r ctxt st).err = some (.handlerErr emsg) ∧
    (Main r ctxt st).trace = gs.map hookFunc.tag ++ [fbad.tag] := by
  obtain ⟨m3, hrun⟩ := runHooks_firstFail gs fbad rest emsg mem h6 h7
  have hbody : hookBody r ctxt mem =
      (gs.map hookFunc.tag ++ [fbad.tag], m3, some (.handlerErr emsg)) := by
    rw [hookBody_ne_nil r ctxt mem h4, h5, hrun]
    rfl
  rw [Main_eventMode r ctxt st mem h1 h2 h3, hbody]
  exact ⟨rfl, rfl⟩

/-- Witness for C2: three handlers, the second always fails, and the
store rejects every save; the reported error is still the handler error
and the third handler never ran. -/
theorem first_failing_handler_witness :
    (Main rFail ctxtInstall stSaveFailCfg).err = some (.handlerErr "boom") ∧
    (Main rFail ctxtInstall stSaveFailCfg).trace = [1, 2] := by
  have h := first_failing_handler_aborts_chain_and_is_reported
    rFail ctxtInstall stSaveFailCfg ["0"] [hOk1] [hOk3] hBad "boom"
    rfl rfl rfl
    (by
      rw [show hooksGet rFail.hooks ctxtInstall.hookName = [hOk1, hBad, hOk3] from rfl]
      exact List.cons_ne_nil _ _)
    rfl
    (by
      intro g hg m2
      simp at hg
      subst hg
      rfl)
    (fun _ => rfl)
  exact h

theorem hookBody_no_saveErr (r : Registry) (ctxt : Context) (mem : Mem)
    (e : String) : (hookBody r ctxt mem).2.2 ≠ some (.saveErr e) := by
  unfold hookBody
  by_cases hnil : (hooksGet r.hooks ctxt.hookName).isEmpty = true
  · simp [hnil]
  · simp only [hnil, Bool.false_eq_true, if_false]
    rcases hrr : runHooks (hooksGet r.hooks ctxt.hookName ++ hooksGet r.hooks "*") mem
      with ⟨tr, mem2, he⟩
    cases he <;> simp

theorem Main_eventMode_err (r : Registry) (ctxt : Context) (st : PersistentState)
    (mem : Mem) (h1 : ctxt.runCommandName = "")
    (h2 : loadState r st = .ok mem)
    (h3 : runSetters r.contexts ctxt = none) :
    (Main r ctxt st).err =
      match (hookBody r ctxt mem).2.2 with
      | some b => some b
      | none => ((saveState r (hookBody r ctxt mem).2.1 st).2).map .saveErr := by
  rw [Main_eventMode r ctxt st mem h1 h2 h3]

theorem Main_eventMode_store (r : Registry) (ctxt : Context) (st : PersistentState)
    (mem : Mem) (h1 : ctxt.runCommandName = "")
    (h2 : loadState r st = .ok mem)
    (h3 : runSetters r.contexts ctxt = none) :
    (Main r ctxt st).store = (saveState r (hookBody r ctxt mem).2.1 st).1 := by
  rw [Main_eventMode r ctxt st mem h1 h2 h3]

theorem Main_eventMode_saveAttempted (r : Registry) (ctxt : Context)
    (st : PersistentState) (mem : Mem) (h1 : ctxt.runCommandName = "")
    (h2 : loadState r st = .ok mem)
    (h3 : runSetters r.contexts ctxt = none) :
    (Main r ctxt st).saveAttempted = true := by
  rw [Main_eventMode r ctxt st mem h1 h2 h3]

/-- C3: every event-mode invocation that gets past state loading and the
context setters attempts the state save after the handler phase, whether
or not that phase failed: the resulting store is the store produced by
saving the post-handler memory; a handler-phase error is always the
reported error; and the reported error is a save error exactly when the
handler phase succeeded and the save failed. -/
theorem state_save_attempted_after_handlers_and_error_policy
    (r : Registry) (ctxt : Context) (st : PersistentState) (mem : Mem)
    (h1 : ctxt.runCommandName = "")
    (h2 : loadState r st = .ok mem)
    (h3 : runSetters r.contexts ctxt = none) :
    (Main r ctxt st).saveAttempted = true ∧
    (Main r ctxt st).store = (saveState r (hookBody r ctxt mem).2.1 st).1 ∧
    (∀ b, (hookBody r ctxt mem).2.2 = some b → (Main r ctxt st).err = some b) ∧
    ((∃ e, (Main r ctxt st).err = some (.saveErr e)) ↔
      ((hookBody r ctxt mem).2.2 = none ∧
        (saveState r (hookBody r ctxt mem).2.1 st).2.isSome)) := by
  refine ⟨Main_eventMode_saveAttempted r ctxt st mem h1 h2 h3,
    Main_eventMode_store r ctxt st mem h1 h2 h3, ?_, ?_⟩
  · intro b hb
    rw [Main_eventMode_err r ctxt st mem h1 h2 h3, hb]
  · rw [Main_eventMode_err r ctxt st mem h1 h2 h3]
    constructor
    · rintro ⟨e, he⟩
      rcases hbe : (hookBody r ctxt mem).2.2 with _ | b
      · refine ⟨rfl, ?_⟩
        rw [hbe] at he
        rcases hsv : (saveState r (hookBody r ctxt mem).2.1 st).2 with _ | e2
        · rw [hsv] at he
          simp at he
        · simp [hsv]
      · exfalso
        rw [hbe] at he
        simp only [Option.some.injEq] at he
        exact hookBody_no_saveErr r ctxt mem e (by rw [hbe, he])
    · rintro ⟨hbe, hsv⟩
      rw [hbe]
      rcases hsv2 : (saveState r (hookBody r ctxt mem).2.1 st).2 with _ | e2
      · rw [hsv2] at hsv
        simp at hsv
      · exact ⟨e2, rfl⟩

/-- Witness for C3 at a concrete invocation: one succeeding handler, a
store whose save fails; the save was attempted and its error is the
reported error. -/
theorem state_save_policy_witness :
    (Main rStart ctxtStart stSaveFailN).saveAttempted = true ∧
    (Main rStart ctxtStart stSaveFailN).store =
      (saveState rStart (hookBody rStart ctxtStart ["0"]).2.1 stSaveFailN).1 ∧
    (∀ b, (hookBody rStart ctxtStart ["0"]).2.2 = some b →
      (Main rStart ctxtStart stSaveFailN).err = some b) ∧
    ((∃ e, (Main rStart ctxtStart stSaveFailN).err = some (.saveErr e)) ↔
      ((hookBody rStart ctxtStart ["0"]).2.2 = none ∧
        (saveState rStart (hookBody rStart ctxtStart ["0"]).2.1 stSaveFailN).2.isSome)) :=
  state_save_attempted_after_handlers_and_error_policy
    rStart ctxtStart stSaveFailN ["0"] rfl rfl rfl

/-- C10: an event-mode invocation whose event name has no registered
non-wildcard handlers reports the usage error and runs no handler, yet
still attempts the deferred save of every registered state entry, so the
persistent store is rewritten from the loaded in-memory values. -/
theorem usage_error_invocation_still_saves_state
    (r : Registry) (ctxt : Context) (st : PersistentState) (mem : Mem)
    (h1 : ctxt.runCommandName = "")
    (h2 : loadState r st = .ok mem)
    (h3 : runSetters r.contexts ctxt = none)
    (h4 : hooksGet r.hooks ctxt.hookName = []) :
    Main r ctxt st = ⟨none, some .usage, (saveState r mem st).1, [], true⟩ := by
  have hbody : hookBody r ctxt mem = ([], mem, some MainErr.usage) := by
    simp [hookBody, h4]
  rw [Main_eventMode r ctxt st mem h1 h2 h3, hbody]

/-- Witness for C10: a registry with one state entry and no hooks; the
invocation reports the usage error while the previously empty store now
holds the saved entry. -/
theorem usage_error_saves_state_witness :
    Main rCounter ctxtConfigChanged stEmpty =
      ⟨none, some .usage, ⟨[("counter", "5")], [], []⟩, [], true⟩ ∧
    (Main rCounter ctxtConfigChanged stEmpty).store ≠ stEmpty := by
  have h := usage_error_invocation_still_saves_state
    rCounter ctxtConfigChanged stEmpty ["5"] rfl rfl rfl rfl
  refine ⟨h.trans rfl, ?_⟩
  rw [h]
  decide

theorem map_eq_of_zip (entries : List StateEntry) (mem : Mem)
    (g : StateEntry → StateVal)
    (hlen : entries.length = mem.length)
    (h : ∀ p ∈ entries.zip mem, g p.1 = p.2) :
    entries.map g = mem := by
  induction entries generalizing mem with
  | nil =>
    cases mem with
    | nil => rfl
    | cons v m => simp at hlen
  | cons e rest ih =>
    cases mem with
    | nil => simp at hlen
    | cons v m =>
      rw [List.map_cons]
      have h1 := h (e, v) (by rw [List.zip_cons_cons]; exact List.mem_cons_self _ _)
      rw [h1]
      congr 1
      exact ih m (by simpa using hlen)
        (fun p hp => h p (by rw [List.zip_cons_cons]; exact List.mem_cons_of_mem _ hp))

theorem loadStateAux_ok (st : PersistentState) (entries : List StateEntry)
    (h : ∀ e ∈ entries, e.registryName ∉ st.loadFails) :
    loadStateAux st entries = .ok (entries.map (loadedVal st)) := by
  induction entries with
  | nil => rfl
  | cons e rest ih =>
    have he := h e (List.mem_cons_self e rest)
    have hrest := ih (fun e2 h2 => h e2 (List.mem_cons_of_mem e h2))
    cases hb : assocGet st.entries e.registryName with
    | none =>
      have hload : st.Load e.registryName = .ok none := by
        unfold PersistentState.Load
        rw [if_neg he, hb]
      simp [loadStateAux, hload, hrest, loadedVal, hb]
    | some b =>
      have hload : st.Load e.registryName = .ok (some b) := by
        unfold PersistentState.Load
        rw [if_neg he, hb]
      simp [loadStateAux, hload, hrest, loadedVal, hb]

theorem saveStateAux_ok (entries : List StateEntry) (mem : Mem)
    (st : PersistentState)
    (hlen : entries.length = mem.length)
    (hsf : ∀ e ∈ entries, e.registryName ∉ st.saveFails) :
    ∃ st2, saveStateAux st entries mem = (st2, none) ∧
      st2.saveFails = st.saveFails ∧
      st2.loadFails = st.loadFails ∧
      (∀ n, n ∉ entries.map StateEntry.registryName →
        assocGet st2.entries n = assocGet st.entries n) ∧
      ((entries.map StateEntry.registryName).Nodup →
        ∀ p ∈ entries.zip mem, assocGet st2.entries p.1.registryName = some p.2) := by
  induction entries generalizing mem st with
  | nil =>
    exact ⟨st, rfl, rfl, rfl, fun n _ => rfl, fun _ p hp => absurd hp (by simp)⟩
  | cons e rest ih =>
    cases mem with
    | nil => simp at hlen
    | cons v m =>
      have he := hsf e (List.mem_cons_self e rest)
      have hsave : st.Save e.registryName (json_Marshal v) =
          .ok { st with entries := assocSet st.entries e.registryName v } := by
        unfold PersistentState.Save
        rw [if_neg he]
        rfl
      obtain ⟨st2, hrec, hsf2, hlf2, huntouched, hsaved⟩ :=
        ih m { st with entries := assocSet st.entries e.registryName v }
          (by simpa using hlen) (fun e2 h2 => hsf e2 (List.mem_cons_of_mem e h2))
      refine ⟨st2, ?_, hsf2, hlf2, ?_, ?_⟩
      · simp only [saveStateAux, hsave]
        exact hrec
      · intro n hn
        have hn1 : n ≠ e.registryName := fun hq => hn (by simp [hq])
        have hn2 : n ∉ rest.map StateEntry.registryName := fun hq => hn (by simp [hq])
        rw [huntouched n hn2]
        show assocGet (assocSet st.entries e.registryName v) n = assocGet st.entries n
        rw [assocGet_assocSet, if_neg (fun hq => hn1 hq.symm)]
      · intro hnd p hp
        rw [List.map_cons, List.nodup_cons] at hnd
        rw [List.zip_cons_cons] at hp
        rcases List.mem_cons.mp hp with rfl | hp2
        · rw [huntouched _ hnd.1]
          show assocGet (assocSet st.entries e.registryName v) e.registryName = some v
          rw [assocGet_assocSet, if_pos rfl]
        · exact hsaved hnd.2 p hp2

/-- C4: state saved under a namespace path is reconstructed equal by a
subsequent load (when the store accepts the writes), and a load from a
store in which nothing was ever saved for the registered paths leaves
every registered value at its caller-supplied default and reports no
error. Uses the spec-modelled `PersistentState`; paths are assumed
pairwise distinct, which the namespacing scheme of the registry is
designed to guarantee. -/
theorem state_save_load_round_trip
    (r : Registry) (st : PersistentState) (mem : Mem)
    (hnd : (r.state.map StateEntry.registryName).Nodup)
    (hflt : ∀ e ∈ r.state,
      e.registryName ∉ st.saveFails ∧ e.registryName ∉ st.loadFails)
    (hlen : r.state.length = mem.length) :
    (∃ st2, saveState r mem st = (st2, none) ∧ loadState r st2 = .ok mem) ∧
    ((∀ e ∈ r.state, assocGet st.entries e.registryName = none) →
      loadState r st = .ok (r.state.map StateEntry.val)) := by
  constructor
  · obtain ⟨st2, hsv, _, hlf2, _, hsaved⟩ :=
      saveStateAux_ok r.state mem st hlen (fun e he => (hflt e he).1)
    refine ⟨st2, hsv, ?_⟩
    unfold loadState
    rw [loadStateAux_ok st2 r.state
      (fun e he => by rw [hlf2]; exact (hflt e he).2)]
    congr 1
    apply map_eq_of_zip r.state mem (loadedVal st2) hlen
    intro p hp
    have hval := hsaved hnd p hp
    simp only [loadedVal, hval]
    rfl
  · intro hnone
    unfold loadState
    rw [loadStateAux_ok st r.state (fun e he => (hflt e he).2)]
    congr 1
    apply List.map_congr_left
    intro e he
    simp [loadedVal, hnone e he]

/-- Witness for C4: saving the value `42` under `svc/count` and loading
it back reconstructs `42`; loading from an empty store leaves the
default `41` and reports no error. -/
theorem state_round_trip_witness :
    (∃ st2, saveState rCount ["42"] stEmpty = (st2, none) ∧
      loadState rCount st2 = .ok ["42"]) ∧
    ((∀ e ∈ rCount.state, assocGet stEmpty.entries e.registryName = none) →
      loadState rCount stEmpty = .ok (rCount.state.map StateEntry.val)) :=
  state_save_load_round_trip rCount stEmpty ["42"]
    (by decide) (by decide) (by decide)

theorem str_ne_length_pos (s : String) (h : s ≠ "") : 0 < s.length := by
  rcases s with ⟨data⟩
  cases data with
  | nil => exact absurd rfl h
  | cons c cs => simp [String.length]

/-- C5: classification of a failed subprocess tool run by
`execToolRunner.Run`: empty stderr returns the raw launch error;
otherwise the stderr text is whitespace-trimmed and stripped of a
leading `error: ` marker, and yields the distinguishable unimplemented
error when it begins with the reserved unknown-command marker, a generic
error carrying the processed text otherwise. -/
theorem exec_tool_runner_stderr_classification
    (stdoutData stderrData : String) (e : String) :
    (stderrData = "" →
      execToolRunner_Run stdoutData stderrData (some e) = .error (.raw e)) ∧
    (stderrData ≠ "" →
      (isUnimplemented (dropLeading "error: " (strings_TrimSpace stderrData)) = true →
        execToolRunner_Run stdoutData stderrData (some e) =
          .error (.unimplemented (dropLeading "error: " (strings_TrimSpace stderrData)))) ∧
      (isUnimplemented (dropLeading "error: " (strings_TrimSpace stderrData)) = false →
        execToolRunner_Run stdoutData stderrData (some e) =
          .error (.generic (dropLeading "error: " (strings_TrimSpace stderrData))))) := by
  refine ⟨?_, ?_⟩
  · intro h
    subst h
    rfl
  · intro h
    have hpos : 0 < stderrData.length := str_ne_length_pos stderrData h
    constructor
    · intro hu
      simp [execToolRunner_Run, hpos, hu]
    · intro hu
      simp [execToolRunner_Run, hpos, hu]

/-- Witness for C5 at concrete subprocess outcomes: the reserved marker
yields the unimplemented kind, other stderr text yields a generic error
with the diagnostic marker stripped, and empty stderr returns the raw
launch error. -/
theorem exec_tool_runner_classification_witness :
    execToolRunner_Run "" " error: bad request: unknown command: relation-set\n"
      (some "exit status 1") =
      .error (.unimplemented "bad request: unknown command: relation-set") ∧
    execToolRunner_Run "" "error: flag provided but not defined\n"
      (some "exit status 2") =
      .error (.generic "flag provided but not defined") ∧
    execToolRunner_Run "" "" (some "file not found") =
      .error (.raw "file not found") := by
  refine ⟨?_, ?_, ?_⟩
  · have hs : dropLeading "error: "
        (strings_TrimSpace " error: bad request: unknown command: relation-set\n") =
        "bad request: unknown command: relation-set" := by decide
    exact (((exec_tool_runner_stderr_classification ""
      " error: bad request: unknown command: relation-set\n" "exit status 1").2
      (by decide)).1 (by decide)).trans (by rw [hs])
  · have hs : dropLeading "error: "
        (strings_TrimSpace "error: flag provided but not defined\n") =
        "flag provided but not defined" := by decide
    exact (((exec_tool_runner_stderr_classification ""
      "error: flag provided but not defined\n" "exit status 2").2
      (by decide)).2 (by decide)).trans (by rw [hs])
  · exact (exec_tool_runner_stderr_classification "" "" "file not found").1 rfl

/-- C6, behavior of the code at the failing input: the socket-RPC tool
runner issues no request on its RPC connection and returns a nil stdout
with a nil error for every call, and the runner constructor returns the
subprocess runner rather than a socket-backed one. -/
theorem socket_tool_runner_sends_no_request :
    socketToolRunner_Run "relation-ids" ["db"] = ([], "", none) ∧
    (∀ cmd args, socketToolRunner_Run cmd args = ([], "", none)) ∧
    newToolRunnerFromEnvironment = .ok .execRunner :=
  ⟨rfl, fun _ _ => rfl, rfl⟩

/-- C7: registering a command under an already-taken fully-qualified path
(registry namespace joined with the local name) fails at registration
time, and registering under a free full path always succeeds. -/
theorem register_command_duplicate_full_path_fails :
    (∀ (r r2 : Registry) (ns1 n1 ns2 n2 : String) (c1 c2 : Nat),
      r.RegisterCommand ns1 n1 c1 = .ok r2 →
      filepath_Join ns2 n2 = filepath_Join ns1 n1 →
      ∃ msg, r2.RegisterCommand ns2 n2 c2 = .error msg) ∧
    (∀ (r : Registry) (ns n : String) (c : Nat),
      assocGet r.commands (filepath_Join ns n) = none →
      ∃ r2, r.RegisterCommand ns n c = .ok r2) := by
  constructor
  · intro r r2 ns1 n1 ns2 n2 c1 c2 hok hjoin
    simp only [Registry.RegisterCommand] at hok ⊢
    by_cases hp : (assocGet r.commands (filepath_Join ns1 n1)).isSome
    · rw [if_pos hp] at hok
      exact Except.noConfusion hok
    · rw [if_neg hp] at hok
      injection hok with hok
      have hcond : (assocGet ({ r with
          commands := assocSet r.commands (filepath_Join ns1 n1) c1 } :
          Registry).commands (filepath_Join ns2 n2)).isSome := by
        show (assocGet (assocSet r.commands (filepath_Join ns1 n1) c1)
          (filepath_Join ns2 n2)).isSome
        rw [hjoin, assocGet_assocSet, if_pos rfl]
        rfl
      rw [← hok]
      exact ⟨_, if_pos hcond⟩
  · intro r ns n c h
    simp only [Registry.RegisterCommand]
    refine ⟨{ r with commands := assocSet r.commands (filepath_Join ns n) c }, ?_⟩
    rw [if_neg (by rw [h]; exact Bool.false_ne_true)]

/-- Witness for C7: after registering `start` in the `srv` namespace,
registering the same local name in the same namespace fails, while the
first registration on the free path succeeded. -/
theorem register_command_duplicate_witness :
    (∃ msg, Registry.RegisterCommand
      ({ commands := [("srv/start", 1)] } : Registry) "srv" "start" 2 =
        .error msg) ∧
    (∃ r2, Registry.RegisterCommand ({} : Registry) "srv" "start" 1 = .ok r2) := by
  constructor
  · exact register_command_duplicate_full_path_fails.1
      {} ({ commands := [("srv/start", 1)] } : Registry)
      "srv" "start" "srv" "start" 1 2 rfl rfl
  · exact register_command_duplicate_full_path_fails.2 {} "srv" "start" 1 rfl

/-- C9 counterexample: `RegisteredHooks` ranges over a Go map, whose
iteration order is unspecified, so two calls on the same registry state
may return differently ordered lists: both orders are admissible returns
on a two-hook registry, and they are not equal. -/
theorem registered_hooks_not_order_deterministic :
    RegisteredHooks rAB ["a", "b"] ∧ RegisteredHooks rAB ["b", "a"] ∧
    (["a", "b"] : List String) ≠ ["b", "a"] := by
  refine ⟨?_, ?_, by decide⟩
  · show List.Perm ["a", "b"] (rAB.hooks.map Prod.fst)
    decide
  · show List.Perm ["b", "a"] (rAB.hooks.map Prod.fst)
    decide

/-- C9 as amended: every admissible return of `RegisteredHooks` is a
complete snapshot, containing exactly the registered hook names (same
membership and same multiplicities as the registered key list); only the
order may vary between calls. -/
theorem registered_hooks_complete_snapshot (r : Registry) (out : List String)
    (h : RegisteredHooks r out) :
    (∀ n, n ∈ out ↔ n ∈ r.hooks.map Prod.fst) ∧
    (∀ n, out.count n = (r.hooks.map Prod.fst).count n) :=
  ⟨fun _ => h.mem_iff, fun n => h.count_eq n⟩

/-- Witness for C9 at the two-hook registry and one admissible return. -/
theorem registered_hooks_snapshot_witness :
    (∀ n, n ∈ (["b", "a"] : List String) ↔ n ∈ rAB.hooks.map Prod.fst) ∧
    (∀ n, (["b", "a"] : List String).count n =
      (rAB.hooks.map Prod.fst).count n) :=
  registered_hooks_complete_snapshot rAB ["b", "a"]
    (by show List.Perm ["b", "a"] (rAB.hooks.map Prod.fst); decide)

/-- C8: event-mode context construction fails with a precondition error
naming the variable exactly when some required environment variable is
unset, where the required set is: the always-required identity variables;
the relation variables only when the relation-name variable is set; and
the remote-unit variable additionally for relation-scoped events whose
hook name does not end in the relation-broken suffix. -/
theorem context_env_validation (env : Env) (hookName : String)
    (h1 : hookName ≠ "")
    (h2 : strings_HasPfx hookName "cmd-" = false) :
    ((∃ v, NewContextFromEnvironment env hookName [] = .error (.envMissing v)) ↔
      (∃ v ∈ requiredEnvVars env hookName, os_Getenv env v = "")) ∧
    (∀ v, NewContextFromEnvironment env hookName [] = .error (.envMissing v) →
      v ∈ requiredEnvVars env hookName ∧ os_Getenv env v = "") ∧
    (envRelationName ∈ requiredEnvVars env hookName ↔
      os_Getenv env envRelationName ≠ "") ∧
    (envRelationId ∈ requiredEnvVars env hookName ↔
      os_Getenv env envRelationName ≠ "") ∧
    (envRemoteUnit ∈ requiredEnvVars env hookName ↔
      (os_Getenv env envRelationName ≠ "" ∧
        strings_HasSfx hookName ("-" ++ relationBroken) = false)) := by
  have hred : NewContextFromEnvironment env hookName [] =
      match (requiredEnvVars env hookName).find? (fun v => os_Getenv env v == "") with
      | some v => .error (.envMissing v)
      | none =>
        .ok { uuid := os_Getenv env envUUID
              unit := os_Getenv env envUnitName
              charmDir := os_Getenv env envCharmDir
              relationName := os_Getenv env envRelationName
              relationId := os_Getenv env envRelationId
              remoteUnit := os_Getenv env envRemoteUnit
              hookName := hookName } := by
    unfold NewContextFromEnvironment
    rw [if_neg h1, if_neg (by rw [h2]; exact Bool.false_ne_true), if_neg (by simp)]
  have hsome : ∀ v,
      (requiredEnvVars env hookName).find? (fun v => os_Getenv env v == "") = some v →
      NewContextFromEnvironment env hookName [] = .error (.envMissing v) := by
    intro v hf
    rw [hred, hf]
  have hnone :
      (requiredEnvVars env hookName).find? (fun v => os_Getenv env v == "") = none →
      ∃ c, NewContextFromEnvironment env hookName [] = .ok c := by
    intro hf
    rw [hred, hf]
    exact ⟨_, rfl⟩
  refine ⟨?_, ?_, ?_, ?_, ?_⟩
  · constructor
    · rintro ⟨v, hv⟩
      cases hf : (requiredEnvVars env hookName).find?
          (fun v => os_Getenv env v == "") with
      | none =>
        obtain ⟨c, hc⟩ := hnone hf
        rw [hc] at hv
        exact Except.noConfusion hv
      | some v2 =>
        refine ⟨v2, List.mem_of_find?_eq_some hf, ?_⟩
        simpa using List.find?_some hf
    · rintro ⟨v, hvmem, hvempty⟩
      cases hf : (requiredEnvVars env hookName).find?
          (fun v => os_Getenv env v == "") with
      | none =>
        exfalso
        have hnot := List.find?_eq_none.mp hf v hvmem
        exact hnot (by simp [hvempty])
      | some v2 => exact ⟨v2, hsome v2 hf⟩
  · intro v hv
    cases hf : (requiredEnvVars env hookName).find?
        (fun v => os_Getenv env v == "") with
    | none =>
      obtain ⟨c, hc⟩ := hnone hf
      rw [hc] at hv
      exact Except.noConfusion hv
    | some v2 =>
      have hv2 := hsome v2 hf
      rw [hv2] at hv
      have hvv : v2 = v := by
        have := Except.error.inj hv
        exact CtxErr.envMissing.inj this
      subst hvv
      exact ⟨List.mem_of_find?_eq_some hf, by simpa using List.find?_some hf⟩
  · by_cases hrel : os_Getenv env envRelationName = ""
    · simp [requiredEnvVars, hrel, mustEnvVars, relationEnvVars,
        envUUID, envUnitName, envCharmDir, envJujuContextId, envRelationName]
    · simp [requiredEnvVars, hrel, mustEnvVars, relationEnvVars,
        envUUID, envUnitName, envCharmDir, envJujuContextId, envRelationName]
  · by_cases hrel : os_Getenv env envRelationName = ""
    · simp [requiredEnvVars, hrel, mustEnvVars, relationEnvVars,
        envUUID, envUnitName, envCharmDir, envJujuContextId,
        envRelationName, envRelationId]
    · simp [requiredEnvVars, hrel, mustEnvVars, relationEnvVars,
        envUUID, envUnitName, envCharmDir, envJujuContextId,
        envRelationName, envRelationId]
  · by_cases hrel : os_Getenv env envRelationName = ""
    · simp [requiredEnvVars, hrel, mustEnvVars, relationEnvVars,
        envUUID, envUnitName, envCharmDir, envJujuContextId,
        envRelationName, envRelationId, envRemoteUnit]
    · by_cases hsuf : strings_HasSfx hookName ("-" ++ relationBroken) = true
      · simp [requiredEnvVars, hrel, hsuf, mustEnvVars, relationEnvVars,
          envUUID, envUnitName, envCharmDir, envJujuContextId,
          envRelationName, envRelationId, envRemoteUnit]
      · simp only [Bool.not_eq_true] at hsuf
        simp [requiredEnvVars, hrel, hsuf, mustEnvVars, relationEnvVars,
          envUUID, envUnitName, envCharmDir, envJujuContextId,
          envRelationName, envRelationId, envRemoteUnit]

/-- Witness for C8: an environment missing only the unit name, for a
non-relation hook. -/
theorem context_env_validation_witness :
    ((∃ v, NewContextFromEnvironment envNoUnit "install" [] =
        .error (.envMissing v)) ↔
      (∃ v ∈ requiredEnvVars envNoUnit "install", os_Getenv envNoUnit v = "")) ∧
    (∀ v, NewContextFromEnvironment envNoUnit "install" [] =
        .error (.envMissing v) →
      v ∈ requiredEnvVars envNoUnit "install" ∧ os_Getenv envNoUnit v = "") ∧
    (envRelationName ∈ requiredEnvVars envNoUnit "install" ↔
      os_Getenv envNoUnit envRelationName ≠ "") ∧
    (envRelationId ∈ requiredEnvVars envNoUnit "install" ↔
      os_Getenv envNoUnit envRelationName ≠ "") ∧
    (envRemoteUnit ∈ requiredEnvVars envNoUnit "install" ↔
      (os_Getenv envNoUnit envRelationName ≠ "" ∧
        strings_HasSfx "install" ("-" ++ relationBroken) = false)) :=
  context_env_validation envNoUnit "install" (by decide) (by decide)

end GoCharm
